import Mathlib

/-!
Shallow embedding of the stock-trading agent swarm simulator.

The embedding covers:
* `Portfolio` and its trade settlement (`src/core/portfolio.py`),
* the risk manager's order validation and stop-loss sweep
  (`src/agents/risk_manager_agent.py`),
* the trader's risk-decision and trade-executed handlers
  (`src/agents/trader_agent.py`),
* the market environment's order submission and execution sweep
  (`src/core/market_environment.py`),
* the agent lifecycle guard (`src/agents/base_agent.py`).

Python floats are modelled by `ℚ`, Python ints by `ℤ`, Python dicts by
insertion-ordered association lists, and fallible operations by `Option`.
-/

set_option linter.unusedVariables false

namespace Swarm

/-- Order side, from `src/core/schemas.py` (`OrderSide`). -/
inductive OrderSide
| BUY
| SELL
deriving DecidableEq, Repr

/-- Order status, from `src/core/schemas.py` (`OrderStatus`). -/
inductive OrderStatus
| PENDING
| APPROVED
| REJECTED
| EXECUTED
| CANCELLED
deriving DecidableEq, Repr

/-- Association-list lookup modelling Python dict read (`d[k]` / `k in d`).
Returns the first binding of the key. -/
def findVal {α : Type} : List (String × α) → String → Option α
| [], _ => none
| (k, v) :: rest, key => if k = key then some v else findVal rest key

/-- Association-list write modelling Python dict assignment `d[k] = v`:
replaces the first binding of the key, else appends a new binding. -/
def setVal {α : Type} : List (String × α) → String → α → List (String × α)
| [], key, v => [(key, v)]
| (k, w) :: rest, key, v =>
  if k = key then (key, v) :: rest else (k, w) :: setVal rest key v

/-- Association-list delete modelling Python `del d[k]`: removes the first
binding of the key. -/
def delVal {α : Type} : List (String × α) → String → List (String × α)
| [], _ => []
| (k, w) :: rest, key => if k = key then rest else (k, w) :: delVal rest key

/-- Position record, from `src/core/schemas.py` (`Position`). -/
structure Position where
  symbol : String
  quantity : Int
  avg_cost : ℚ
  current_price : ℚ
  unrealized_pnl : ℚ
deriving DecidableEq, Repr

/-- Position.update_price from `src/core/schemas.py`. -/
def Position.update_price (p : Position) (new_price : ℚ) : Position :=
  { p with current_price := new_price,
           unrealized_pnl := (new_price - p.avg_cost) * (p.quantity : ℚ) }

/-- Trade record, from `src/core/schemas.py` (`Trade`). -/
structure PTrade where
  id : String
  order_id : String
  symbol : String
  side : OrderSide
  quantity : Int
  execution_price : ℚ
  commission : ℚ
  trader_id : String
deriving DecidableEq, Repr

/-- Portfolio state, from `src/core/portfolio.py` (`Portfolio.__init__`).
`positions` models the `Dict[str, Position]` keyed by symbol; the key of an
entry is the `symbol` field of the stored `Position`, as in the source. -/
structure Portfolio where
  initial_cash : ℚ
  cash : ℚ
  positions : List (String × Position)
  realized_pnl : ℚ
  trades_history : List PTrade
deriving DecidableEq, Repr

/-- Portfolio.__init__ with a given initial cash. -/
def Portfolio.init (initial_cash : ℚ) : Portfolio :=
  { initial_cash := initial_cash
    cash := initial_cash
    positions := []
    realized_pnl := 0
    trades_history := [] }

/-- Portfolio.update_price from `src/core/portfolio.py`. -/
def Portfolio.update_price (pf : Portfolio) (symbol : String) (current_price : ℚ) :
    Portfolio :=
  match findVal pf.positions symbol with
  | none => pf
  | some pos =>
    { pf with positions := setVal pf.positions symbol (pos.update_price current_price) }

/-- Portfolio.update_all_prices from `src/core/portfolio.py`. -/
def Portfolio.update_all_prices (pf : Portfolio) (prices : List (String × ℚ)) :
    Portfolio :=
  prices.foldl (fun acc kv => acc.update_price kv.1 kv.2) pf

/-- Portfolio._execute_buy from `src/core/portfolio.py`.  Returns `none`
exactly when the Python method returns `False` (insufficient cash), in which
case no state was touched; `some pf` is the mutated portfolio of a `True`
return. -/
def Portfolio.execute_buy (pf : Portfolio) (trade : PTrade) : Option Portfolio :=
  let total_cost := trade.execution_price * (trade.quantity : ℚ) + trade.commission
  if total_cost > pf.cash then none
  else
    let cash := pf.cash - total_cost
    let positions :=
      match findVal pf.positions trade.symbol with
      | some position =>
        let total_cost_basis :=
          position.avg_cost * (position.quantity : ℚ) +
            trade.execution_price * (trade.quantity : ℚ)
        let quantity := position.quantity + trade.quantity
        let avg_cost := total_cost_basis / (quantity : ℚ)
        setVal pf.positions trade.symbol
          { position with
              quantity := quantity
              avg_cost := avg_cost
              current_price := trade.execution_price
              unrealized_pnl := (trade.execution_price - avg_cost) * (quantity : ℚ) }
      | none =>
        setVal pf.positions trade.symbol
          { symbol := trade.symbol
            quantity := trade.quantity
            avg_cost := trade.execution_price
            current_price := trade.execution_price
            unrealized_pnl := 0 }
    some { pf with
             cash := cash
             positions := positions
             trades_history := pf.trades_history ++ [trade] }

/-- Portfolio._execute_sell from `src/core/portfolio.py`.  `none` models the
`False` returns (no position / insufficient shares), before any mutation. -/
def Portfolio.execute_sell (pf : Portfolio) (trade : PTrade) : Option Portfolio :=
  match findVal pf.positions trade.symbol with
  | none => none
  | some position =>
    if trade.quantity > position.quantity then none
    else
      let proceeds := trade.execution_price * (trade.quantity : ℚ) - trade.commission
      let cash := pf.cash + proceeds
      let pnl := (trade.execution_price - position.avg_cost) * (trade.quantity : ℚ)
      let realized_pnl := pf.realized_pnl + pnl
      let quantity := position.quantity - trade.quantity
      let positions :=
        if quantity = 0 then delVal pf.positions trade.symbol
        else
          setVal pf.positions trade.symbol
            { position with
                quantity := quantity
                current_price := trade.execution_price
                unrealized_pnl :=
                  (trade.execution_price - position.avg_cost) * (quantity : ℚ) }
      some { pf with
               cash := cash
               positions := positions
               realized_pnl := realized_pnl
               trades_history := pf.trades_history ++ [trade] }

/-- Portfolio.execute_trade from `src/core/portfolio.py`. -/
def Portfolio.execute_trade (pf : Portfolio) (trade : PTrade) : Option Portfolio :=
  match trade.side with
  | OrderSide.BUY => pf.execute_buy trade
  | OrderSide.SELL => pf.execute_sell trade

/-- Sum of `quantity * current_price` over the positions, as in
`Portfolio.get_total_value`. -/
def positionsValue (ps : List (String × Position)) : ℚ :=
  (ps.map (fun kv => (kv.2.quantity : ℚ) * kv.2.current_price)).sum

/-- Portfolio.get_total_value from `src/core/portfolio.py`.  The Python
method can mutate `self` (it calls `update_all_prices` when a non-empty dict
is passed), so it is modelled as returning the possibly-updated portfolio
together with the value; `if current_prices:` is falsy for `None` and for an
empty dict. -/
def Portfolio.get_total_value (pf : Portfolio)
    (current_prices : Option (List (String × ℚ))) : Portfolio × ℚ :=
  let pf1 :=
    match current_prices with
    | some prices => if prices.isEmpty then pf else pf.update_all_prices prices
    | none => pf
  (pf1, pf1.cash + positionsValue pf1.positions)

/-- Portfolio.get_unrealized_pnl from `src/core/portfolio.py`. -/
def Portfolio.get_unrealized_pnl (pf : Portfolio) : ℚ :=
  (pf.positions.map (fun kv => kv.2.unrealized_pnl)).sum

/-- Portfolio.get_total_pnl from `src/core/portfolio.py`. -/
def Portfolio.get_total_pnl (pf : Portfolio) : ℚ :=
  pf.realized_pnl + pf.get_unrealized_pnl

/-- Snapshot returned by `Portfolio.get_summary`. -/
structure Summary where
  cash : ℚ
  positions_count : Nat
  positions_value : ℚ
  total_value : ℚ
  realized_pnl : ℚ
  unrealized_pnl : ℚ
  total_pnl : ℚ
  total_return_pct : ℚ
  trades_count : Nat
deriving DecidableEq, Repr

/-- Portfolio.get_summary from `src/core/portfolio.py`.  It calls
`get_total_value()` with no argument, so the portfolio it reads from is the
(possibly) updated one returned by that call. -/
def Portfolio.get_summary (pf : Portfolio) : Portfolio × Summary :=
  let r := pf.get_total_value none
  let pf1 := r.1
  let total_value := r.2
  (pf1,
    { cash := pf1.cash
      positions_count := pf1.positions.length
      positions_value := positionsValue pf1.positions
      total_value := total_value
      realized_pnl := pf1.realized_pnl
      unrealized_pnl := pf1.get_unrealized_pnl
      total_pnl := pf1.get_total_pnl
      total_return_pct := (total_value - pf1.initial_cash) / pf1.initial_cash * 100
      trades_count := pf1.trades_history.length })

/-- Reason attached to a risk decision.  The Python code returns formatted
strings; each constructor carries the numeric values the corresponding
f-string interpolates, and `orderApproved` stands for the literal
"Order approved". -/
inductive RiskReason
| noMarketData
| positionLimitExceeded (order_value max_position_size : ℚ)
| insufficientCash (need avail : ℚ)
| insufficientShares (trying held : ℤ)
| portfolioRiskExceeded (total max_allowed : ℚ)
| orderApproved
deriving DecidableEq, Repr

/-- Shadow position kept by the risk manager, from
`RiskManagerAgent._on_trade_executed` (`src/agents/risk_manager_agent.py`):
a dict with trader_id, symbol, quantity and avg_cost, keyed by
`trader_id_symbol`. -/
structure ShadowPos where
  trader_id : String
  symbol : String
  quantity : Int
  avg_cost : ℚ
deriving DecidableEq, Repr

/-- Risk manager state, from `RiskManagerAgent.__init__`
(`src/agents/risk_manager_agent.py`). -/
structure RiskState where
  initial_portfolio_value : ℚ
  max_position_size : ℚ
  stop_loss_percent : ℚ
  max_portfolio_risk : ℚ
  current_positions : List (String × ShadowPos)
  current_prices : List (String × ℚ)
  trader_cash : List (String × ℚ)
deriving DecidableEq, Repr

/-- RiskManagerAgent._validate_order from `src/agents/risk_manager_agent.py`.
The `price` argument is the order's quoted price; as in the source it is
never read (the check uses the known market price). -/
def RiskState.validate_order (st : RiskState) (trader_id symbol side : String)
    (quantity : Int) (price : ℚ) : Bool × RiskReason :=
  match findVal st.current_prices symbol with
  | none => (false, RiskReason.noMarketData)
  | some current_price =>
    let order_value := (quantity : ℚ) * current_price
    if order_value > st.max_position_size then
      (false, RiskReason.positionLimitExceeded order_value st.max_position_size)
    else
      let trader_cash :=
        (findVal st.trader_cash trader_id).getD (st.initial_portfolio_value / 4)
      let current_position :=
        ((findVal st.current_positions (trader_id ++ "_" ++ symbol)).map
          (fun p => p.quantity)).getD 0
      let total_exposure :=
        (st.current_positions.map
          (fun kv => (kv.2.quantity : ℚ) *
            ((findVal st.current_prices kv.2.symbol).getD 0))).sum
      let max_allowed_exposure := st.initial_portfolio_value * st.max_portfolio_risk
      let exposure_check :=
        if side = "BUY" ∧ total_exposure + order_value > max_allowed_exposure then
          (false,
            RiskReason.portfolioRiskExceeded (total_exposure + order_value)
              max_allowed_exposure)
        else (true, RiskReason.orderApproved)
      if side = "BUY" then
        if order_value > trader_cash then
          (false, RiskReason.insufficientCash order_value trader_cash)
        else exposure_check
      else if side = "SELL" then
        if quantity > current_position then
          (false, RiskReason.insufficientShares quantity current_position)
        else exposure_check
      else exposure_check

/-- Stop-loss alert payload, published to `stop_loss_alerts` by
`RiskManagerAgent._check_stop_losses`. -/
structure StopAlert where
  trader_id : String
  symbol : String
  quantity : Int
  avg_cost : ℚ
  current_price : ℚ
  loss_percent : ℚ
deriving DecidableEq, Repr

/-- Alert produced (or not) for a single shadowed position by one iteration of
the loop in `RiskManagerAgent._check_stop_losses`. -/
def RiskState.stopAlertFor (st : RiskState) (kv : String × ShadowPos) :
    Option StopAlert :=
  let pos := kv.2
  match findVal st.current_prices pos.symbol with
  | none => none
  | some current_price =>
    if pos.quantity ≤ 0 then none
    else
      let loss_percent := (pos.avg_cost - current_price) / pos.avg_cost
      if loss_percent > st.stop_loss_percent then
        some { trader_id := pos.trader_id
               symbol := pos.symbol
               quantity := pos.quantity
               avg_cost := pos.avg_cost
               current_price := current_price
               loss_percent := loss_percent }
      else none

/-- RiskManagerAgent._check_stop_losses from
`src/agents/risk_manager_agent.py`: one sweep over the shadowed positions,
returning the list of alerts published, in iteration order. -/
def RiskState.check_stop_losses (st : RiskState) : List StopAlert :=
  st.current_positions.filterMap st.stopAlertFor

/-- Order record as held in a trader's `pending_orders` list, from
`src/core/schemas.py` (`Order`) restricted to the fields the trader's
handlers read or write. -/
structure TOrder where
  id : String
  symbol : String
  side : String
  quantity : Int
  price : ℚ
  status : OrderStatus
  rejection_reason : Option String
deriving DecidableEq, Repr

/-- Trader state, from `TraderAgent.__init__` (`src/agents/trader_agent.py`),
restricted to the fields the risk-decision and trade-executed handlers touch. -/
structure TraderState where
  cash : ℚ
  positions : List (String × Int)
  pending_orders : List TOrder
deriving DecidableEq, Repr

/-- Observable side effects of the trader's handlers: the status written onto
a matched order object, and the publish of an `order_approved` message. -/
inductive TEvent
| statusSet (order_id : String) (status : OrderStatus)
| approvedPublished (order_id : String)
deriving DecidableEq, Repr

/-- Replace the first pending order with the given id, as mutating the object
found by `next(o for o in self.pending_orders if o.id == order_id)`. -/
def updateFirstOrder : List TOrder → String → (TOrder → TOrder) → List TOrder
| [], _, _ => []
| o :: rest, order_id, f =>
  if o.id = order_id then f o :: rest
  else o :: updateFirstOrder rest order_id f

/-- Remove the first pending order with the given id, as
`self.pending_orders.remove(matching_order)` where `matching_order` is the
first order with that id. -/
def removeFirstOrder : List TOrder → String → List TOrder
| [], _ => []
| o :: rest, order_id =>
  if o.id = order_id then rest else o :: removeFirstOrder rest order_id

/-- Status of the (first) pending order with the given id, the observable the
order state machine is stated over. -/
def TraderState.orderStatus (st : TraderState) (order_id : String) :
    Option OrderStatus :=
  (st.pending_orders.find? (fun o => o.id == order_id)).map (fun o => o.status)

/-- TraderAgent._on_risk_decision from `src/agents/trader_agent.py`:
if no pending order matches the id the message is ignored; an approval sets
the order's status to APPROVED (the order stays in `pending_orders`) and
publishes an `order_approved` message; a rejection sets REJECTED with the
reason and removes the order from `pending_orders`. -/
def TraderState.on_risk_decision (st : TraderState) (order_id : String)
    (approved : Bool) (reason : String) : TraderState × List TEvent :=
  match st.pending_orders.find? (fun o => o.id == order_id) with
  | none => (st, [])
  | some _ =>
    if approved then
      ({ st with
           pending_orders :=
             updateFirstOrder st.pending_orders order_id
               (fun o => { o with status := OrderStatus.APPROVED }) },
       [TEvent.statusSet order_id OrderStatus.APPROVED,
        TEvent.approvedPublished order_id])
    else
      ({ st with
           pending_orders :=
             removeFirstOrder
               (updateFirstOrder st.pending_orders order_id
                 (fun o => { o with status := OrderStatus.REJECTED,
                                    rejection_reason := some reason }))
               order_id },
       [TEvent.statusSet order_id OrderStatus.REJECTED])

/-- TraderAgent._on_trade_executed from `src/agents/trader_agent.py`:
if a pending order matches, applies the fill to the trader's own cash and
position counters and removes the order from `pending_orders` (its status
field is not written). -/
def TraderState.on_trade_executed (st : TraderState) (order_id symbol side : String)
    (quantity : Int) (execution_price commission : ℚ) : TraderState × List TEvent :=
  match st.pending_orders.find? (fun o => o.id == order_id) with
  | none => (st, [])
  | some _ =>
    let st1 :=
      if side = "BUY" then
        { st with
            positions :=
              setVal st.positions symbol ((findVal st.positions symbol).getD 0 + quantity)
            cash := st.cash - (execution_price * (quantity : ℚ) + commission) }
      else if side = "SELL" then
        { st with
            positions :=
              setVal st.positions symbol ((findVal st.positions symbol).getD 0 - quantity)
            cash := st.cash + (execution_price * (quantity : ℚ) - commission) }
      else st
    ({ st1 with pending_orders := removeFirstOrder st1.pending_orders order_id }, [])

/-- Message kinds consumed by the trader's order-lifecycle handlers. -/
inductive TMsg
| riskDecision (order_id : String) (approved : Bool) (reason : String)
| tradeExecuted (order_id symbol side : String) (quantity : Int)
    (execution_price commission : ℚ)
deriving DecidableEq, Repr

/-- Dispatch one message to the trader's handlers. -/
def TraderState.stepMsg (st : TraderState) : TMsg → TraderState × List TEvent
| TMsg.riskDecision order_id approved reason =>
  st.on_risk_decision order_id approved reason
| TMsg.tradeExecuted order_id symbol side quantity execution_price commission =>
  st.on_trade_executed order_id symbol side quantity execution_price commission

/-- Process a sequence of messages, accumulating the observable events. -/
def TraderState.runMsgs (st : TraderState) : List TMsg → TraderState × List TEvent
| [] => (st, [])
| m :: rest =>
  let r := st.stepMsg m
  let r2 := r.1.runMsgs rest
  (r2.1, r.2 ++ r2.2)

/-- Order record held by the market environment, from `src/core/schemas.py`
(`Order`) restricted to the fields `MarketEnvironment` reads. -/
structure EOrder where
  id : String
  trader_id : String
  symbol : String
  side : OrderSide
  quantity : Int
  price : Option ℚ
  status : OrderStatus
deriving DecidableEq, Repr

/-- Trade record emitted by the market environment, from
`src/core/schemas.py` (`Trade`). -/
structure ETrade where
  id : String
  order_id : String
  symbol : String
  side : OrderSide
  quantity : Int
  execution_price : ℚ
  commission : ℚ
  trader_id : String
deriving DecidableEq, Repr

/-- Market environment state, from `MarketEnvironment.__init__`
(`src/core/market_environment.py`), restricted to order handling. -/
structure MarketEnv where
  commission_rate : ℚ
  current_prices : List (String × ℚ)
  pending_orders : List EOrder
  executed_trades : List ETrade
deriving DecidableEq, Repr

/-- MarketEnvironment.submit_order from `src/core/market_environment.py`:
a non-APPROVED order is dropped with a warning; an APPROVED order is appended
to the pending queue. -/
def MarketEnv.submit_order (env : MarketEnv) (order : EOrder) : MarketEnv :=
  if order.status ≠ OrderStatus.APPROVED then env
  else { env with pending_orders := env.pending_orders ++ [order] }

/-- Trade built for an executing order in
`MarketEnvironment.execute_pending_orders`. -/
def mkTrade (commission_rate : ℚ) (order : EOrder) (execution_price : ℚ) : ETrade :=
  { id := "trade_" ++ order.id
    order_id := order.id
    symbol := order.symbol
    side := order.side
    quantity := order.quantity
    execution_price := execution_price
    commission := execution_price * (order.quantity : ℚ) * commission_rate
    trader_id := order.trader_id }

/-- Body of the loop of `MarketEnvironment.execute_pending_orders`: walks the
snapshot of the pending queue in order, returning the orders still pending
afterwards and the trades created (in execution order). -/
def sweepGo (prices : List (String × ℚ)) (commission_rate : ℚ) :
    List EOrder → List EOrder × List ETrade
| [] => ([], [])
| order :: rest =>
  let r := sweepGo prices commission_rate rest
  match findVal prices order.symbol with
  | none => (order :: r.1, r.2)
  | some execution_price =>
    let gated : Bool :=
      match order.price with
      | some limit =>
        (order.side == OrderSide.BUY && decide (execution_price > limit)) ||
          (order.side == OrderSide.SELL && decide (execution_price < limit))
      | none => false
    if gated then (order :: r.1, r.2)
    else (r.1, mkTrade commission_rate order execution_price :: r.2)

/-- MarketEnvironment.execute_pending_orders from
`src/core/market_environment.py`: returns the updated environment and the
list of trades broadcast on the `trades` topic, in order. -/
def MarketEnv.execute_pending_orders (env : MarketEnv) : MarketEnv × List ETrade :=
  let r := sweepGo env.current_prices env.commission_rate env.pending_orders
  ({ env with
       pending_orders := r.1
       executed_trades := env.executed_trades ++ r.2 },
   r.2)

/-- Lifecycle state of a `BaseAgent` (`src/agents/base_agent.py`): the
`_running` flag and the `_task` slot (`none` = no task was ever created,
`some true` = a live processing loop, `some false` = a task that has been
cancelled and awaited). -/
structure AgentState where
  running : Bool
  task : Option Bool
deriving DecidableEq, Repr

/-- BaseAgent.start from `src/agents/base_agent.py`: if already running, log
a warning (the returned flag) and do nothing; otherwise set `_running`,
register subscriptions and create the processing-loop task. -/
def AgentState.start (s : AgentState) : AgentState × Bool :=
  if s.running then (s, true)
  else ({ running := true, task := some true }, false)

/-- BaseAgent.stop from `src/agents/base_agent.py`: clear `_running`; if a
task exists, cancel it and await it, swallowing the `CancelledError`
(cancelling an already-finished task leaves it finished). -/
def AgentState.stop (s : AgentState) : AgentState :=
  match s.task with
  | none => { s with running := false }
  | some _ => { running := false, task := some false }

/-- Number of live processing loops in a lifecycle state. -/
def AgentState.activeLoops (s : AgentState) : Nat :=
  if s.task = some true then 1 else 0

/-- Spec-side description of `_validate_order` (for the refinement claim):
the five admission checks written in the spec's fixed order, first failing
check wins — (1) price availability, (2) position-size cap, (3) BUY cash
sufficiency against the shadowed cash (defaulting to an even split of the
total configured capital over the four traders), (4) SELL share sufficiency,
(5) BUY-only portfolio exposure cap — and approval otherwise. -/
def validateSpec (st : RiskState) (trader_id symbol side : String)
    (quantity : Int) (price : ℚ) : Bool × RiskReason :=
  match findVal st.current_prices symbol with
  | none => (false, RiskReason.noMarketData)
  | some knownPrice =>
    let orderValue := (quantity : ℚ) * knownPrice
    let shadowCash :=
      (findVal st.trader_cash trader_id).getD (st.initial_portfolio_value / 4)
    let heldQuantity :=
      ((findVal st.current_positions (trader_id ++ "_" ++ symbol)).map
        (fun p => p.quantity)).getD 0
    let totalExposure :=
      (st.current_positions.map
        (fun kv => (kv.2.quantity : ℚ) *
          ((findVal st.current_prices kv.2.symbol).getD 0))).sum
    let exposureCap := st.initial_portfolio_value * st.max_portfolio_risk
    if orderValue > st.max_position_size then
      (false, RiskReason.positionLimitExceeded orderValue st.max_position_size)
    else if side = "BUY" ∧ orderValue > shadowCash then
      (false, RiskReason.insufficientCash orderValue shadowCash)
    else if side = "SELL" ∧ quantity > heldQuantity then
      (false, RiskReason.insufficientShares quantity heldQuantity)
    else if side = "BUY" ∧ totalExposure + orderValue > exposureCap then
      (false, RiskReason.portfolioRiskExceeded (totalExposure + orderValue) exposureCap)
    else (true, RiskReason.orderApproved)

/-- Spec-side executability of a pending order against the price snapshot
(for the refinement claim about the execution sweep): an order with no
current price is skipped; a limit BUY is skipped when the execution price
exceeds the limit, a limit SELL when it falls below the limit; everything
else executes. -/
def executableSpec (prices : List (String × ℚ)) (order : EOrder) : Bool :=
  match findVal prices order.symbol with
  | none => false
  | some execution_price =>
    match order.price with
    | none => true
    | some limit =>
      !((order.side == OrderSide.BUY && decide (execution_price > limit)) ||
        (order.side == OrderSide.SELL && decide (execution_price < limit)))

/-- Spec-side trade produced from an executing order: one trade, with
`commission = executionPrice * quantity * commissionRate` (for the refinement
claim about the execution sweep). -/
def tradeOfSpec (prices : List (String × ℚ)) (commission_rate : ℚ)
    (order : EOrder) : ETrade :=
  let execution_price := (findVal prices order.symbol).getD 0
  { id := "trade_" ++ order.id
    order_id := order.id
    symbol := order.symbol
    side := order.side
    quantity := order.quantity
    execution_price := execution_price
    commission := execution_price * (order.quantity : ℚ) * commission_rate
    trader_id := order.trader_id }

/-- Order-status transitions allowed by the spec's state machine. -/
def allowedEdge : OrderStatus → OrderStatus → Bool
| OrderStatus.PENDING, OrderStatus.APPROVED => true
| OrderStatus.PENDING, OrderStatus.REJECTED => true
| OrderStatus.APPROVED, OrderStatus.EXECUTED => true
| OrderStatus.APPROVED, OrderStatus.CANCELLED => true
| _, _ => false

/-- Portfolio-level observation event: a fill settled through
`execute_trade`, or a market-price update through `update_price`. -/
inductive PEvent
| fill (t : PTrade)
| price (symbol : String) (px : ℚ)
deriving DecidableEq, Repr

/-- Apply one portfolio event; a fill propagates the failure of
`execute_trade`. -/
def applyEvent (pf : Portfolio) : PEvent → Option Portfolio
| PEvent.fill t => pf.execute_trade t
| PEvent.price s c => some (pf.update_price s c)

/-- Apply a sequence of events, requiring every fill to be successfully
applied. -/
def applyEvents : Portfolio → List PEvent → Option Portfolio
| pf, [] => some pf
| pf, e :: rest =>
  match applyEvent pf e with
  | none => none
  | some pf2 => applyEvents pf2 rest

/-- Sum of `quantity * avg_cost` over the positions (the open cost basis). -/
def costBasis (ps : List (String × Position)) : ℚ :=
  (ps.map (fun kv => (kv.2.quantity : ℚ) * kv.2.avg_cost)).sum

/-- Sum of the commissions of a trade history. -/
def totalCommissions (ts : List PTrade) : ℚ :=
  (ts.map (fun t => t.commission)).sum

/-- Bookkeeping consistency of one position: the stored unrealized PnL
matches its defining formula. -/
def PosOk (p : Position) : Prop :=
  p.unrealized_pnl = (p.current_price - p.avg_cost) * (p.quantity : ℚ)

/-- Ledger invariant maintained by the portfolio: every stored position is
consistent and strictly positive, and cash plus open cost basis equals
initial cash plus realized PnL minus all commissions paid. -/
def PortfolioInv (pf : Portfolio) : Prop :=
  (∀ kv ∈ pf.positions, PosOk kv.2 ∧ 0 < kv.2.quantity) ∧
    pf.cash + costBasis pf.positions =
      pf.initial_cash + pf.realized_pnl - totalCommissions pf.trades_history

/-- Fixture: a BUY fill with a non-zero commission, for the counterexample to
the commission-free PnL identity. -/
def c1Trade : PTrade :=
  { id := "t1", order_id := "o1", symbol := "AAPL", side := OrderSide.BUY
    quantity := 1, execution_price := 100, commission := 1, trader_id := "trader_1" }

/-- Fixture: the portfolio obtained by settling `c1Trade` on a fresh
portfolio of 1000. -/
def c1Pf : Portfolio :=
  { initial_cash := 1000
    cash := 899
    positions := [("AAPL",
      { symbol := "AAPL", quantity := 1, avg_cost := 100,
        current_price := 100, unrealized_pnl := 0 })]
    realized_pnl := 0
    trades_history := [c1Trade] }

/-- Fixture: a pending order awaiting a risk decision. -/
def c3Order : TOrder :=
  { id := "o1", symbol := "AAPL", side := "BUY", quantity := 10, price := 100
    status := OrderStatus.PENDING, rejection_reason := none }

/-- Fixture: a trader holding `c3Order` as its only pending order. -/
def c3Trader : TraderState :=
  { cash := 1000, positions := [], pending_orders := [c3Order] }

/-- Fixture: two risk decisions for the same order id, an approval followed
by a rejection. -/
def c3Msgs : List TMsg :=
  [TMsg.riskDecision "o1" true "Order approved",
   TMsg.riskDecision "o1" false "Portfolio risk limit exceeded"]

/-- Fixture: a portfolio holding one position whose stored price is 100. -/
def c8Pf : Portfolio :=
  { initial_cash := 1000
    cash := 0
    positions := [("AAPL",
      { symbol := "AAPL", quantity := 10, avg_cost := 100,
        current_price := 100, unrealized_pnl := 0 })]
    realized_pnl := 0
    trades_history := [] }



def c4Pos : Position :=
  { symbol := "AAPL", quantity := 10, avg_cost := 50, current_price := 50,
    unrealized_pnl := 0 }

def c4Pf : Portfolio :=
  { initial_cash := 2000, cash := 2000, positions := [("AAPL", c4Pos)],
    realized_pnl := 0, trades_history := [] }

def c4Buy : PTrade :=
  { id := "t1", order_id := "o1", symbol := "AAPL", side := OrderSide.BUY,
    quantity := 10, execution_price := 100, commission := 0, trader_id := "trader_1" }

def c4PfB : Portfolio :=
  { initial_cash := 2000, cash := 1000,
    positions := [("AAPL",
      { symbol := "AAPL", quantity := 20, avg_cost := 75, current_price := 100,
        unrealized_pnl := 500 })],
    realized_pnl := 0, trades_history := [c4Buy] }

def c5Sell : PTrade :=
  { id := "t2", order_id := "o2", symbol := "AAPL", side := OrderSide.SELL,
    quantity := 100, execution_price := 10, commission := 0, trader_id := "trader_1" }

def c7Pos : ShadowPos :=
  { trader_id := "trader_1", symbol := "AAPL", quantity := 10, avg_cost := 100 }

def c7St : RiskState :=
  { initial_portfolio_value := 1000000, max_position_size := 50000,
    stop_loss_percent := 1/20, max_portfolio_risk := 1/5,
    current_positions := [("trader_1_AAPL", c7Pos)],
    current_prices := [("AAPL", 90)], trader_cash := [] }

theorem findVal_setVal_self {α : Type} (l : List (String × α)) (key : String) (v : α) :
    findVal (setVal l key v) key = some v := by
  induction l with
  | nil => simp [setVal, findVal]
  | cons kv rest ih =>
    by_cases h : kv.1 = key
    · simp [setVal, findVal, h]
    · simp [setVal, findVal, h, ih]

theorem findVal_mem {α : Type} {l : List (String × α)} {key : String} {w : α}
    (h : findVal l key = some w) : (key, w) ∈ l := by
  induction l with
  | nil => simp [findVal] at h
  | cons kv rest ih =>
    by_cases hk : kv.1 = key
    · simp [findVal, hk] at h
      have : kv = (key, w) := by
        cases kv; simp_all
      rw [← this]
      exact List.mem_cons_self _ _
    · simp [findVal, hk] at h
      exact List.mem_cons_of_mem _ (ih h)

theorem mem_setVal {α : Type} {l : List (String × α)} {key : String} {v : α}
    {kv : String × α} (h : kv ∈ setVal l key v) : kv ∈ l ∨ kv = (key, v) := by
  induction l with
  | nil => simp [setVal] at h; simp [h]
  | cons hd rest ih =>
    by_cases hk : hd.1 = key
    · simp only [setVal, hk, if_pos, List.mem_cons] at h
      rcases h with h | h
      · right; exact h
      · left; exact List.mem_cons_of_mem _ h
    · simp only [setVal, hk, if_neg, not_false_iff, List.mem_cons] at h
      rcases h with h | h
      · left; rw [h]; exact List.mem_cons_self _ _
      · rcases ih h with h2 | h2
        · left; exact List.mem_cons_of_mem _ h2
        · right; exact h2

theorem mem_delVal {α : Type} {l : List (String × α)} {key : String}
    {kv : String × α} (h : kv ∈ delVal l key) : kv ∈ l := by
  induction l with
  | nil => simp [delVal] at h
  | cons hd rest ih =>
    by_cases hk : hd.1 = key
    · simp only [delVal, hk, if_pos] at h
      exact List.mem_cons_of_mem _ h
    · simp only [delVal, hk, if_neg, not_false_iff, List.mem_cons] at h
      rcases h with h | h
      · rw [h]; exact List.mem_cons_self _ _
      · exact List.mem_cons_of_mem _ (ih h)

theorem sumMap_setVal {α : Type} (g : String × α → ℚ) {l : List (String × α)}
    {key : String} {w : α} (v : α) (hw : findVal l key = some w) :
    ((setVal l key v).map g).sum = (l.map g).sum - g (key, w) + g (key, v) := by
  induction l with
  | nil => simp [findVal] at hw
  | cons hd rest ih =>
    by_cases hk : hd.1 = key
    · simp [findVal, hk] at hw
      have hhd : hd = (key, w) := by cases hd; simp_all
      simp [setVal, hk, hhd]
      ring
    · simp [findVal, hk] at hw
      simp [setVal, hk, ih hw]
      ring

theorem sumMap_setVal_none {α : Type} (g : String × α → ℚ) {l : List (String × α)}
    {key : String} (v : α) (hw : findVal l key = none) :
    ((setVal l key v).map g).sum = (l.map g).sum + g (key, v) := by
  induction l with
  | nil => simp [setVal]
  | cons hd rest ih =>
    by_cases hk : hd.1 = key
    · simp [findVal, hk] at hw
    · simp [findVal, hk] at hw
      simp [setVal, hk, ih hw]
      ring

theorem sumMap_delVal {α : Type} (g : String × α → ℚ) {l : List (String × α)}
    {key : String} {w : α} (hw : findVal l key = some w) :
    ((delVal l key).map g).sum = (l.map g).sum - g (key, w) := by
  induction l with
  | nil => simp [findVal] at hw
  | cons hd rest ih =>
    by_cases hk : hd.1 = key
    · simp [findVal, hk] at hw
      have hhd : hd = (key, w) := by cases hd; simp_all
      simp [delVal, hk, hhd]
    · simp [findVal, hk] at hw
      simp [delVal, hk, ih hw]
      ring

theorem findVal_eq_none_of_forall {α : Type} {l : List (String × α)} {key : String}
    (h : ∀ a b, (a, b) ∈ l → ¬ a = key) : findVal l key = none := by
  induction l with
  | nil => simp [findVal]
  | cons hd rest ih =>
    have hk : ¬ hd.1 = key := h hd.1 hd.2 (by simp)
    simp only [findVal, hk, if_neg, not_false_iff]
    exact ih (fun a b hab => h a b (List.mem_cons_of_mem _ hab))

theorem findVal_delVal {α : Type} {l : List (String × α)} {key : String}
    (hc : l.countP (fun kv => kv.1 == key) ≤ 1) :
    findVal (delVal l key) key = none := by
  induction l with
  | nil => simp [delVal, findVal]
  | cons hd rest ih =>
    by_cases hk : hd.1 = key
    · rw [List.countP_cons] at hc
      have hb : (hd.1 == key) = true := by simp [hk]
      rw [hb] at hc
      simp at hc
      simp only [delVal, hk, if_pos]
      exact findVal_eq_none_of_forall hc
    · rw [List.countP_cons] at hc
      have hb : (hd.1 == key) = false := by simp [hk]
      rw [hb] at hc
      simp only [delVal, findVal, hk, if_neg, not_false_iff]
      apply ih
      omega



/-- C9: `start()` is idempotent — a second `start()` while running warns and
is a no-op, leaving exactly one active processing loop — and a second
`stop()` is a no-op. -/
theorem start_stop_idempotent (s : AgentState) (h : s.running = false) :
    AgentState.start (s.start).1 = ((s.start).1, true)
    ∧ (s.start).1.activeLoops = 1
    ∧ ∀ s2 : AgentState, s2.stop.stop = s2.stop := by
  refine ⟨?_, ?_, ?_⟩
  · simp [AgentState.start, h]
  · simp [AgentState.start, h, AgentState.activeLoops]
  · intro s2
    cases ht : s2.task <;> simp [AgentState.stop, ht]

/-- C10: `submit_order` on an order whose status is not APPROVED is a no-op:
the order is not queued and the whole engine state is unchanged (hence it can
never produce a trade). -/
theorem submit_order_non_approved_noop (env : MarketEnv) (order : EOrder)
    (h : order.status ≠ OrderStatus.APPROVED) :
    env.submit_order order = env := by
  simp [MarketEnv.submit_order, h]

/-- C5: a BUY whose total cost `executionPrice*quantity + commission`
exceeds available cash fails (insufficient funds), and a SELL with no
position or with quantity above the held quantity fails (insufficient
shares); a `none` result of the pure `execute_trade` means the Python method
returned `False` before touching any state, so cash, positions, realized PnL
and the trade history are unchanged. -/
theorem execute_trade_failure_paths (pf : Portfolio) (t : PTrade) :
    (t.side = OrderSide.BUY →
      pf.cash < t.execution_price * (t.quantity : ℚ) + t.commission →
      pf.execute_trade t = none)
    ∧ (t.side = OrderSide.SELL → findVal pf.positions t.symbol = none →
        pf.execute_trade t = none)
    ∧ (∀ pos : Position, t.side = OrderSide.SELL →
        findVal pf.positions t.symbol = some pos →
        pos.quantity < t.quantity →
        pf.execute_trade t = none) := by
  refine ⟨?_, ?_, ?_⟩
  · intro hside hcash
    simp [Portfolio.execute_trade, hside, Portfolio.execute_buy, hcash]
  · intro hside hnone
    simp [Portfolio.execute_trade, hside, Portfolio.execute_sell, hnone]
  · intro pos hside hfind hq
    simp [Portfolio.execute_trade, hside, Portfolio.execute_sell, hfind, hq]

theorem sweepGo_eq (prices : List (String × ℚ)) (rate : ℚ) (l : List EOrder) :
    sweepGo prices rate l =
      (l.filter (fun o => !executableSpec prices o),
       (l.filter (fun o => executableSpec prices o)).map (tradeOfSpec prices rate)) := by
  induction l with
  | nil => simp [sweepGo]
  | cons o rest ih =>
    simp only [sweepGo, ih]
    cases hp : findVal prices o.symbol with
    | none => simp [executableSpec, hp, List.filter_cons]
    | some px =>
      cases hl : o.price with
      | none => simp [executableSpec, hp, hl, tradeOfSpec, mkTrade, List.filter_cons]
      | some limit =>
        have hE : executableSpec prices o =
            !((o.side == OrderSide.BUY && decide (px > limit)) ||
              (o.side == OrderSide.SELL && decide (px < limit))) := by
          simp only [executableSpec, hp, hl]
        cases hb : ((o.side == OrderSide.BUY && decide (px > limit)) ||
            (o.side == OrderSide.SELL && decide (px < limit))) with
        | true =>
          rw [hb] at hE
          simp [List.filter_cons, hE, hb]
        | false =>
          rw [hb] at hE
          simp [List.filter_cons, hE, hb, tradeOfSpec, mkTrade, hp]

/-- C6: one execution sweep keeps exactly the non-executable pending orders
(no price, or limit-gated BUY above / SELL below its limit price) in the
queue, and produces and broadcasts exactly one trade per executable order,
with `commission = executionPrice * quantity * commissionRate`. -/
theorem execute_sweep_characterization (env : MarketEnv) :
    (env.execute_pending_orders).1.pending_orders =
      env.pending_orders.filter (fun o => !executableSpec env.current_prices o)
    ∧ (env.execute_pending_orders).2 =
      (env.pending_orders.filter (fun o => executableSpec env.current_prices o)).map
        (tradeOfSpec env.current_prices env.commission_rate)
    ∧ (env.execute_pending_orders).1.executed_trades =
      env.executed_trades ++ (env.execute_pending_orders).2 := by
  simp [MarketEnv.execute_pending_orders, sweepGo_eq]

/-- C7: the stop-loss sweep emits, for a shadowed position with a known
current price (and positive quantity, an invariant of the shadow state), an
alert carrying the full position detail if and only if
`lossPercent = (avgCost - currentPrice) / avgCost` exceeds the stop-loss
threshold. -/
theorem stop_loss_alert_iff (st : RiskState) (kv : String × ShadowPos) (cp : ℚ)
    (hcp : findVal st.current_prices kv.2.symbol = some cp)
    (hq : 0 < kv.2.quantity) :
    st.check_stop_losses = st.current_positions.filterMap st.stopAlertFor
    ∧ st.stopAlertFor kv =
      (if (kv.2.avg_cost - cp) / kv.2.avg_cost > st.stop_loss_percent then
        some { trader_id := kv.2.trader_id, symbol := kv.2.symbol,
               quantity := kv.2.quantity, avg_cost := kv.2.avg_cost,
               current_price := cp,
               loss_percent := (kv.2.avg_cost - cp) / kv.2.avg_cost }
      else none) := by
  constructor
  · rfl
  · unfold RiskState.stopAlertFor
    simp only [hcp]
    have hq2 : ¬ kv.2.quantity ≤ 0 := by omega
    simp [hq2]



theorem find_updateFirstOrder (l : List TOrder) (oid : String) (f : TOrder → TOrder)
    (hf : ∀ o, (f o).id = o.id) :
    (updateFirstOrder l oid f).find? (fun o => o.id == oid) =
      (l.find? (fun o => o.id == oid)).map f := by
  induction l with
  | nil => simp [updateFirstOrder]
  | cons o rest ih =>
    by_cases h : o.id = oid
    · simp only [updateFirstOrder, h, if_pos]
      simp [List.find?_cons, hf, h]
    · simp only [updateFirstOrder, h, if_neg, not_false_iff]
      simp [List.find?_cons, h, ih]

theorem find_removeFirst_update (l : List TOrder) (oid : String) (f : TOrder → TOrder)
    (hf : ∀ o, (f o).id = o.id)
    (hc : l.countP (fun o => o.id == oid) ≤ 1) :
    (removeFirstOrder (updateFirstOrder l oid f) oid).find? (fun o => o.id == oid) =
      none := by
  induction l with
  | nil => simp [updateFirstOrder, removeFirstOrder]
  | cons o rest ih =>
    by_cases h : o.id = oid
    · rw [List.countP_cons] at hc
      have hb : (o.id == oid) = true := by simp [h]
      rw [hb] at hc
      simp at hc
      simp only [updateFirstOrder, h, if_pos]
      have hfid : (f o).id = oid := by rw [hf, h]
      simp only [removeFirstOrder, hfid, if_pos]
      rw [List.find?_eq_none]
      intro x hx
      simpa using hc x hx
    · rw [List.countP_cons] at hc
      have hb : (o.id == oid) = false := by simp [h]
      rw [hb] at hc
      simp only [updateFirstOrder, h, if_neg, not_false_iff]
      simp only [removeFirstOrder, h, if_neg, not_false_iff]
      rw [List.find?_cons]
      have hp : (o.id == oid) = false := by simp [h]
      rw [hp]
      exact ih (by omega)

/-- C3 (amended): assuming at most one pending order per id, a PENDING order
takes exactly the edge PENDING→APPROVED (publishing one approval) or
PENDING→REJECTED on its first risk decision; a rejected order is removed, so
REJECTED is terminal — any later risk decision for that id is a no-op — and
the trade-executed handler never writes a status.  (The unamended claim fails
because an APPROVED order stays in `pending_orders` and can be re-decided by
a later risk-decision message; see the counterexample.) -/
theorem order_status_machine_amended (st : TraderState) (oid : String)
    (reason reason2 : String)
    (hp : st.orderStatus oid = some OrderStatus.PENDING)
    (hc : st.pending_orders.countP (fun o => o.id == oid) ≤ 1) :
    (st.on_risk_decision oid true reason).1.orderStatus oid =
        some OrderStatus.APPROVED
    ∧ (st.on_risk_decision oid true reason).2 =
        [TEvent.statusSet oid OrderStatus.APPROVED, TEvent.approvedPublished oid]
    ∧ (st.on_risk_decision oid false reason).1.orderStatus oid = none
    ∧ (st.on_risk_decision oid false reason).2 =
        [TEvent.statusSet oid OrderStatus.REJECTED]
    ∧ (∀ st2 : TraderState, st2.orderStatus oid = none →
        ∀ b : Bool, st2.on_risk_decision oid b reason2 = (st2, []))
    ∧ (∀ (st2 : TraderState) (symbol side : String) (q : Int) (px cm : ℚ),
        (st2.on_trade_executed oid symbol side q px cm).2 = []) := by
  obtain ⟨o, ho, hos⟩ : ∃ o, st.pending_orders.find? (fun o => o.id == oid) = some o
      ∧ o.status = OrderStatus.PENDING := by
    unfold TraderState.orderStatus at hp
    rcases Option.map_eq_some'.mp hp with ⟨o, ho, hos⟩
    exact ⟨o, ho, hos⟩
  refine ⟨?_, ?_, ?_, ?_, ?_, ?_⟩
  · unfold TraderState.on_risk_decision TraderState.orderStatus
    rw [ho]
    simp only [if_pos]
    rw [find_updateFirstOrder st.pending_orders oid
      (fun o => { o with status := OrderStatus.APPROVED }) (fun o => rfl), ho]
    simp
  · unfold TraderState.on_risk_decision
    rw [ho]
    simp
  · unfold TraderState.on_risk_decision TraderState.orderStatus
    rw [ho]
    simp only [Bool.false_eq_true, if_false]
    rw [find_removeFirst_update st.pending_orders oid
      (fun o => { o with status := OrderStatus.REJECTED,
                         rejection_reason := some reason }) (fun o => rfl) hc]
    rfl
  · unfold TraderState.on_risk_decision
    rw [ho]
    simp
  · intro st2 hnone b
    unfold TraderState.on_risk_decision
    have : st2.pending_orders.find? (fun o => o.id == oid) = none := by
      unfold TraderState.orderStatus at hnone
      exact Option.map_eq_none'.mp hnone
    rw [this]
  · intro st2 symbol side q px cm
    unfold TraderState.on_trade_executed
    cases h2 : st2.pending_orders.find? (fun o => o.id == oid) <;> simp

/-- C3 counterexample: processing an approval and then a rejection for the
same order id drives the status PENDING→APPROVED→REJECTED; the edge
APPROVED→REJECTED is outside the spec's state machine. -/
theorem order_redecision_counterexample :
    (c3Trader.runMsgs c3Msgs).2 =
      [TEvent.statusSet "o1" OrderStatus.APPROVED, TEvent.approvedPublished "o1",
       TEvent.statusSet "o1" OrderStatus.REJECTED]
    ∧ allowedEdge OrderStatus.APPROVED OrderStatus.REJECTED = false := by
  decide

/-- C3 witness: the amended theorem applied to a concrete one-order trader. -/
theorem order_status_machine_amended_witness :
    (c3Trader.on_risk_decision "o1" true "ok").1.orderStatus "o1" =
        some OrderStatus.APPROVED
    ∧ (c3Trader.on_risk_decision "o1" false "ok").1.orderStatus "o1" = none := by
  have h := order_status_machine_amended c3Trader "o1" "ok" "x" (by decide) (by decide)
  exact ⟨h.1, h.2.2.1⟩



/-- C2: `_validate_order` applies exactly the five admission checks, in the
spec's fixed order with the first failing check determining the rejection
reason, and approves (with "Order approved") an order passing all five. -/
theorem validate_order_matches_spec (st : RiskState)
    (trader_id symbol side : String) (quantity : Int) (price : ℚ) :
    st.validate_order trader_id symbol side quantity price =
      validateSpec st trader_id symbol side quantity price := by
  unfold RiskState.validate_order validateSpec
  cases hp : findVal st.current_prices symbol with
  | none => rfl
  | some knownPrice =>
    by_cases hb : side = "BUY"
    · subst hb
      simp only [String.reduceEq, false_and, true_and, eq_self_iff_true, ite_false, ite_true,
        if_false, if_true]
    · by_cases hs : side = "SELL"
      · subst hs
        simp only [String.reduceEq, false_and, true_and, eq_self_iff_true, ite_false, ite_true,
          if_false, if_true]
      · simp only [hb, hs, false_and, ite_false, if_false]

theorem map_setVal {α β : Type} (g : String × α → β) (l : List (String × α))
    (key : String) (v w : α) (hw : findVal l key = some w)
    (hg : g (key, v) = g (key, w)) :
    (setVal l key v).map g = l.map g := by
  induction l with
  | nil => simp [findVal] at hw
  | cons hd rest ih =>
    by_cases hk : hd.1 = key
    · simp [findVal, hk] at hw
      have hhd : hd = (key, w) := by cases hd; simp_all
      simp [setVal, hk, hhd, hg]
    · simp [findVal, hk] at hw
      simp [setVal, hk, ih hw]

theorem update_price_frame (pf : Portfolio) (s : String) (c : ℚ) :
    (pf.update_price s c).cash = pf.cash
    ∧ (pf.update_price s c).initial_cash = pf.initial_cash
    ∧ (pf.update_price s c).realized_pnl = pf.realized_pnl
    ∧ (pf.update_price s c).trades_history = pf.trades_history
    ∧ (pf.update_price s c).positions.map
        (fun kv => (kv.1, kv.2.symbol, kv.2.quantity, kv.2.avg_cost)) =
      pf.positions.map (fun kv => (kv.1, kv.2.symbol, kv.2.quantity, kv.2.avg_cost)) := by
  unfold Portfolio.update_price
  cases hp : findVal pf.positions s with
  | none => simp
  | some pos =>
    refine ⟨rfl, rfl, rfl, rfl, ?_⟩
    exact map_setVal _ _ _ _ _ hp rfl

theorem update_all_prices_frame (prices : List (String × ℚ)) (pf : Portfolio) :
    (pf.update_all_prices prices).cash = pf.cash
    ∧ (pf.update_all_prices prices).initial_cash = pf.initial_cash
    ∧ (pf.update_all_prices prices).realized_pnl = pf.realized_pnl
    ∧ (pf.update_all_prices prices).trades_history = pf.trades_history
    ∧ (pf.update_all_prices prices).positions.map
        (fun kv => (kv.1, kv.2.symbol, kv.2.quantity, kv.2.avg_cost)) =
      pf.positions.map (fun kv => (kv.1, kv.2.symbol, kv.2.quantity, kv.2.avg_cost)) := by
  induction prices generalizing pf with
  | nil => simp [Portfolio.update_all_prices]
  | cons kv rest ih =>
    have h1 := update_price_frame pf kv.1 kv.2
    have h2 := ih (pf.update_price kv.1 kv.2)
    unfold Portfolio.update_all_prices at h2 ⊢
    simp only [List.foldl_cons]
    refine ⟨?_, ?_, ?_, ?_, ?_⟩
    · rw [h2.1, h1.1]
    · rw [h2.2.1, h1.2.1]
    · rw [h2.2.2.1, h1.2.2.1]
    · rw [h2.2.2.2.1, h1.2.2.2.1]
    · rw [h2.2.2.2.2, h1.2.2.2.2]

/-- C8 (amended): `get_total_value` with no argument and `get_summary` are
pure reads, and `get_total_value` with supplied prices mutates only the
stored `current_price`/`unrealized_pnl` of held positions: cash, initial
cash, realized PnL, trade history, and every position's symbol, quantity and
average cost are unchanged.  (The unamended claim fails because supplying
price overrides always refreshes the stored prices; see the
counterexample.) -/
theorem total_value_frame_amended :
    (∀ pf : Portfolio, pf.get_total_value none =
        (pf, pf.cash + positionsValue pf.positions))
    ∧ (∀ pf : Portfolio, pf.get_summary.1 = pf)
    ∧ (∀ (pf : Portfolio) (prices : List (String × ℚ)),
        (pf.get_total_value (some prices)).1.cash = pf.cash
        ∧ (pf.get_total_value (some prices)).1.initial_cash = pf.initial_cash
        ∧ (pf.get_total_value (some prices)).1.realized_pnl = pf.realized_pnl
        ∧ (pf.get_total_value (some prices)).1.trades_history = pf.trades_history
        ∧ (pf.get_total_value (some prices)).1.positions.map
            (fun kv => (kv.1, kv.2.symbol, kv.2.quantity, kv.2.avg_cost)) =
          pf.positions.map
            (fun kv => (kv.1, kv.2.symbol, kv.2.quantity, kv.2.avg_cost))) := by
  refine ⟨fun pf => rfl, fun pf => rfl, ?_⟩
  intro pf prices
  unfold Portfolio.get_total_value
  by_cases he : prices.isEmpty
  · simp [he]
  · simp only [he, if_neg, Bool.false_eq_true, not_false_iff]
    exact update_all_prices_frame prices pf

/-- C8 counterexample: calling `get_total_value` with a price override
changes the stored current price of a held position (90 replaces 100), so the
call with overrides is not mutation-free. -/
theorem total_value_overrides_mutate :
    ((c8Pf.get_total_value (some [("AAPL", 90)])).1.positions.map
      (fun kv => kv.2.current_price)) ≠
      c8Pf.positions.map (fun kv => kv.2.current_price)
    ∧ (c8Pf.get_total_value (some [("AAPL", 90)])).1 ≠ c8Pf := by
  constructor
  · simp [Portfolio.get_total_value, Portfolio.update_all_prices, Portfolio.update_price,
      Position.update_price, findVal, setVal, c8Pf]
  · intro h
    have := congrArg (fun pf : Portfolio => pf.positions.map (fun kv => kv.2.current_price)) h
    simp [Portfolio.get_total_value, Portfolio.update_all_prices, Portfolio.update_price,
      Position.update_price, findVal, setVal, c8Pf] at this



/-- C4: on a successful BUY into an existing position, the new average cost
is the documented weighted average and the quantity grows by the fill
quantity; on a successful SELL, realized PnL grows by exactly
`(executionPrice - avgCost) * fillQty`, the average cost is unchanged, and
the position is deleted exactly when its quantity reaches zero (assuming the
dict invariant of at most one binding per symbol). -/
theorem fill_position_accounting (pf : Portfolio) (t : PTrade) (pos : Position)
    (hfind : findVal pf.positions t.symbol = some pos) :
    (∀ pf2 : Portfolio, t.side = OrderSide.BUY → pf.execute_trade t = some pf2 →
      ∃ pos2 : Position, findVal pf2.positions t.symbol = some pos2
        ∧ pos2.quantity = pos.quantity + t.quantity
        ∧ pos2.avg_cost = (pos.avg_cost * (pos.quantity : ℚ) +
            t.execution_price * (t.quantity : ℚ)) /
            ((pos.quantity : ℚ) + (t.quantity : ℚ)))
    ∧ (∀ pf2 : Portfolio, t.side = OrderSide.SELL → pf.execute_trade t = some pf2 →
        pf2.realized_pnl = pf.realized_pnl +
          (t.execution_price - pos.avg_cost) * (t.quantity : ℚ)
        ∧ (pos.quantity - t.quantity = 0 →
            pf.positions.countP (fun kv => kv.1 == t.symbol) ≤ 1 →
            findVal pf2.positions t.symbol = none)
        ∧ (pos.quantity - t.quantity ≠ 0 →
            ∃ pos2 : Position, findVal pf2.positions t.symbol = some pos2
              ∧ pos2.quantity = pos.quantity - t.quantity
              ∧ pos2.avg_cost = pos.avg_cost)) := by
  constructor
  · intro pf2 hside he
    have he2 : pf.execute_buy t = some pf2 := by
      rw [← he]
      unfold Portfolio.execute_trade
      rw [hside]
    simp only [Portfolio.execute_buy, hfind] at he2
    split at he2
    · exact absurd he2 (by simp)
    · obtain rfl : _ = pf2 := Option.some.inj he2
      refine ⟨_, findVal_setVal_self _ _ _, rfl, ?_⟩
      push_cast
      ring_nf
  · intro pf2 hside he
    have he2 : pf.execute_sell t = some pf2 := by
      rw [← he]
      unfold Portfolio.execute_trade
      rw [hside]
    simp only [Portfolio.execute_sell, hfind] at he2
    split at he2
    · exact absurd he2 (by simp)
    · obtain rfl : _ = pf2 := Option.some.inj he2
      refine ⟨rfl, ?_, ?_⟩
      · intro h0 hcnt
        simp only [h0, if_pos]
        exact findVal_delVal hcnt
      · intro h0
        simp only [h0, if_neg, not_false_iff]
        exact ⟨_, findVal_setVal_self _ _ _, rfl, rfl⟩



theorem portfolioInv_init (c : ℚ) : PortfolioInv (Portfolio.init c) := by
  constructor
  · intro kv hkv
    simp [Portfolio.init] at hkv
  · simp [Portfolio.init, costBasis, totalCommissions]

theorem positionsValue_eq (ps : List (String × Position))
    (h : ∀ kv ∈ ps, PosOk kv.2) :
    positionsValue ps = costBasis ps + (ps.map (fun kv => kv.2.unrealized_pnl)).sum := by
  induction ps with
  | nil => simp [positionsValue, costBasis]
  | cons kv rest ih =>
    have hhd := h kv (by simp)
    have hrest := ih (fun kv2 hkv2 => h kv2 (List.mem_cons_of_mem _ hkv2))
    unfold PosOk at hhd
    simp only [positionsValue, costBasis, List.map_cons, List.sum_cons] at hrest ⊢
    rw [hhd] at *
    linarith [hrest]

theorem inv_update_price (pf : Portfolio) (s : String) (c : ℚ)
    (h : PortfolioInv pf) : PortfolioInv (pf.update_price s c) := by
  obtain ⟨hpos, hcash⟩ := h
  unfold Portfolio.update_price
  cases hf : findVal pf.positions s with
  | none => exact ⟨hpos, hcash⟩
  | some pos =>
    constructor
    · intro kv hkv
      rcases mem_setVal hkv with hm | hm
      · exact hpos kv hm
      · rw [hm]
        refine ⟨?_, ?_⟩
        · simp [PosOk, Position.update_price]
        · simpa [Position.update_price] using (hpos _ (findVal_mem hf)).2
    · show _ + costBasis (setVal pf.positions s (pos.update_price c)) = _
      unfold costBasis
      rw [sumMap_setVal _ (pos.update_price c) hf]
      simp only [Position.update_price]
      have hx : ∀ x y : ℚ, x - y + y = x := fun x y => by ring
      rw [hx]
      unfold costBasis at hcash
      exact hcash

theorem inv_execute_buy (pf pf2 : Portfolio) (t : PTrade) (hq : 0 < t.quantity)
    (h : PortfolioInv pf) (he : pf.execute_buy t = some pf2) : PortfolioInv pf2 := by
  obtain ⟨hpos, hcash⟩ := h
  simp only [Portfolio.execute_buy] at he
  split at he
  · exact absurd he (by simp)
  case isFalse hcond =>
  cases hf : findVal pf.positions t.symbol with
  | some pos =>
    rw [hf] at he
    obtain rfl : _ = pf2 := Option.some.inj he
    have hposq : 0 < pos.quantity := (hpos _ (findVal_mem hf)).2
    constructor
    · intro kv hkv
      rcases mem_setVal hkv with hm | hm
      · exact hpos kv hm
      · rw [hm]
        constructor
        · simp [PosOk]
        · simp only []
          omega
    · show _ + costBasis (setVal pf.positions t.symbol _) = _
      unfold costBasis
      rw [sumMap_setVal _ _ hf]
      have hne : ((pos.quantity + t.quantity : ℤ) : ℚ) ≠ 0 := by
        rw [Int.cast_ne_zero]
        omega
      simp only []
      rw [mul_comm ((pos.quantity + t.quantity : ℤ) : ℚ), div_mul_cancel₀ _ hne]
      unfold costBasis at hcash
      simp only [totalCommissions, List.map_append, List.sum_append, List.map_cons,
        List.sum_cons, List.map_nil, List.sum_nil] at *
      push_cast at *
      linarith [hcash]
  | none =>
    rw [hf] at he
    obtain rfl : _ = pf2 := Option.some.inj he
    constructor
    · intro kv hkv
      rcases mem_setVal hkv with hm | hm
      · exact hpos kv hm
      · rw [hm]
        constructor
        · simp [PosOk]
        · simpa using hq
    · show _ + costBasis (setVal pf.positions t.symbol _) = _
      unfold costBasis
      rw [sumMap_setVal_none _ _ hf]
      unfold costBasis at hcash
      simp only [totalCommissions, List.map_append, List.sum_append, List.map_cons,
        List.sum_cons, List.map_nil, List.sum_nil] at *
      linarith [hcash]

theorem inv_execute_sell (pf pf2 : Portfolio) (t : PTrade) (hq : 0 < t.quantity)
    (h : PortfolioInv pf) (he : pf.execute_sell t = some pf2) : PortfolioInv pf2 := by
  obtain ⟨hpos, hcash⟩ := h
  simp only [Portfolio.execute_sell] at he
  cases hf : findVal pf.positions t.symbol with
  | none => rw [hf] at he; exact absurd he (by simp)
  | some pos =>
    rw [hf] at he
    split at he
    · exact absurd he (by simp)
    rename_i pos2 hpos2
    obtain rfl : pos = pos2 := Option.some.inj hpos2
    split at he
    · exact absurd he (by simp)
    rename_i hcond
    obtain rfl : _ = pf2 := Option.some.inj he
    have hposq : 0 < pos.quantity := (hpos _ (findVal_mem hf)).2
    by_cases h0 : pos.quantity - t.quantity = 0
    · constructor
      · intro kv hkv
        simp only [h0, if_pos] at hkv
        exact hpos kv (mem_delVal hkv)
      · show _ + costBasis _ = _
        simp only [h0, if_pos]
        unfold costBasis
        rw [sumMap_delVal _ hf]
        have hqq : pos.quantity = t.quantity := by omega
        unfold costBasis at hcash
        simp only [totalCommissions, List.map_append, List.sum_append, List.map_cons,
          List.sum_cons, List.map_nil, List.sum_nil] at *
        rw [hqq] at *
        linarith [hcash]
    · constructor
      · intro kv hkv
        simp only [h0, if_neg, not_false_iff] at hkv
        rcases mem_setVal hkv with hm | hm
        · exact hpos kv hm
        · rw [hm]
          constructor
          · simp [PosOk]
          · simp only []
            omega
      · show _ + costBasis _ = _
        simp only [h0, if_neg, not_false_iff]
        unfold costBasis
        rw [sumMap_setVal _ _ hf]
        unfold costBasis at hcash
        simp only [totalCommissions, List.map_append, List.sum_append, List.map_cons,
          List.sum_cons, List.map_nil, List.sum_nil] at *
        push_cast at *
        linarith [hcash]

theorem inv_execute_trade (pf pf2 : Portfolio) (t : PTrade) (hq : 0 < t.quantity)
    (h : PortfolioInv pf) (he : pf.execute_trade t = some pf2) : PortfolioInv pf2 := by
  unfold Portfolio.execute_trade at he
  cases hside : t.side with
  | BUY => rw [hside] at he; exact inv_execute_buy pf pf2 t hq h he
  | SELL => rw [hside] at he; exact inv_execute_sell pf pf2 t hq h he

theorem inv_applyEvents (evs : List PEvent) (pf pf2 : Portfolio)
    (h : PortfolioInv pf) (hq : ∀ t, PEvent.fill t ∈ evs → 0 < t.quantity)
    (happ : applyEvents pf evs = some pf2) : PortfolioInv pf2 := by
  induction evs generalizing pf with
  | nil =>
    simp [applyEvents] at happ
    rw [← happ]
    exact h
  | cons e rest ih =>
    unfold applyEvents at happ
    cases hmid : applyEvent pf e with
    | none => rw [hmid] at happ; exact absurd happ (by simp)
    | some mid =>
      rw [hmid] at happ
      have hmidInv : PortfolioInv mid := by
        cases e with
        | fill t =>
          exact inv_execute_trade pf mid t (hq t (by simp)) h hmid
        | price s c =>
          have : mid = pf.update_price s c := by
            simpa [applyEvent] using hmid.symm
          rw [this]
          exact inv_update_price pf s c h
      exact ih mid hmidInv (fun t ht => hq t (List.mem_cons_of_mem _ ht)) happ

/-- C1 (amended): for any sequence of successfully applied fills and price
updates on a fresh portfolio, `totalValue - initialCash` equals
`realizedPnL + unrealizedPnL` minus the sum of all commissions paid — the
spec's identity holds exactly only net of commissions.  (The unamended claim
fails for any fill with a non-zero commission; see the counterexample.) -/
theorem pnl_identity_with_commissions (c : ℚ) (evs : List PEvent) (pf2 : Portfolio)
    (hq : ∀ t, PEvent.fill t ∈ evs → 0 < t.quantity)
    (happ : applyEvents (Portfolio.init c) evs = some pf2) :
    (pf2.get_total_value none).2 - pf2.initial_cash =
      pf2.realized_pnl + pf2.get_unrealized_pnl -
        totalCommissions pf2.trades_history := by
  have hinv := inv_applyEvents evs (Portfolio.init c) pf2 (portfolioInv_init c) hq happ
  obtain ⟨hpos, hcash⟩ := hinv
  have hval := positionsValue_eq pf2.positions (fun kv hkv => (hpos kv hkv).1)
  simp only [Portfolio.get_total_value, Portfolio.get_unrealized_pnl]
  linarith [hval, hcash]

/-- C1 counterexample: a single BUY fill with commission 1 on a fresh
portfolio of 1000 leaves `totalValue - initialCash = -1` while
`realizedPnL + unrealizedPnL = 0`, refuting the commission-free identity. -/
theorem pnl_identity_fails_with_commission :
    applyEvents (Portfolio.init 1000) [PEvent.fill c1Trade] = some c1Pf
    ∧ (c1Pf.get_total_value none).2 - c1Pf.initial_cash ≠
      c1Pf.realized_pnl + c1Pf.get_unrealized_pnl := by
  constructor
  · simp [applyEvents, applyEvent, Portfolio.execute_trade, Portfolio.execute_buy,
      Portfolio.init, findVal, setVal, c1Trade, c1Pf]
    norm_num
  · norm_num [Portfolio.get_total_value, Portfolio.get_unrealized_pnl,
      positionsValue, c1Pf]

/-- C1 witness: the amended identity evaluated on the concrete one-fill
run. -/
theorem pnl_identity_with_commissions_witness :
    (c1Pf.get_total_value none).2 - c1Pf.initial_cash =
      c1Pf.realized_pnl + c1Pf.get_unrealized_pnl -
        totalCommissions c1Pf.trades_history := by
  apply pnl_identity_with_commissions 1000 [PEvent.fill c1Trade] c1Pf
  · intro t ht
    simp at ht
    rw [ht]
    norm_num [c1Trade]
  · simp [applyEvents, applyEvent, Portfolio.execute_trade, Portfolio.execute_buy,
      Portfolio.init, findVal, setVal, c1Trade, c1Pf]
    norm_num



/-- C4 witness: the fill accounting applied to a concrete BUY of 10 shares
at 100 into a 10-share position at cost 50. -/
theorem fill_position_accounting_witness :
    ∃ pos2 : Position, findVal c4PfB.positions c4Buy.symbol = some pos2
      ∧ pos2.quantity = c4Pos.quantity + c4Buy.quantity
      ∧ pos2.avg_cost = (c4Pos.avg_cost * (c4Pos.quantity : ℚ) +
          c4Buy.execution_price * (c4Buy.quantity : ℚ)) /
          ((c4Pos.quantity : ℚ) + (c4Buy.quantity : ℚ)) := by
  apply (fill_position_accounting c4Pf c4Buy c4Pos (by simp [c4Pf, c4Buy, findVal])).1
  · rfl
  · show c4Pf.execute_trade c4Buy = some c4PfB
    simp [Portfolio.execute_trade, Portfolio.execute_buy, c4Pf, c4Buy, c4Pos, c4PfB,
      findVal, setVal]
    norm_num

/-- C5 witness: the failure paths applied to a concrete under-funded BUY, a
SELL with no position, and an oversized SELL. -/
theorem execute_trade_failure_paths_witness :
    (Portfolio.init 10).execute_trade c4Buy = none
    ∧ (Portfolio.init 10).execute_trade c5Sell = none
    ∧ c4Pf.execute_trade c5Sell = none := by
  refine ⟨?_, ?_, ?_⟩
  · exact (execute_trade_failure_paths _ _).1 rfl (by norm_num [Portfolio.init, c4Buy])
  · exact (execute_trade_failure_paths _ _).2.1 rfl (by simp [Portfolio.init, findVal])
  · exact (execute_trade_failure_paths _ _).2.2 c4Pos rfl
      (by simp [c4Pf, c5Sell, findVal]) (by norm_num [c4Pos, c5Sell])

/-- C7 witness: the spec's scenario — a position bought at 100 now priced at
90 with a 5 percent threshold yields exactly one alert with loss 1/10. -/
theorem stop_loss_alert_iff_witness :
    c7St.check_stop_losses =
      [{ trader_id := "trader_1", symbol := "AAPL", quantity := 10, avg_cost := 100,
         current_price := 90, loss_percent := 1/10 }] := by
  have h := stop_loss_alert_iff c7St ("trader_1_AAPL", c7Pos) 90
    (by simp [c7St, c7Pos, findVal]) (by norm_num [c7Pos])
  rw [h.1]
  show List.filterMap _ [("trader_1_AAPL", c7Pos)] = _
  rw [List.filterMap]
  rw [h.2]
  norm_num [c7Pos, c7St]

/-- C9 witness: the lifecycle theorem applied to a freshly constructed
agent. -/
theorem start_stop_idempotent_witness :
    AgentState.start ((AgentState.mk false none).start).1 =
        (((AgentState.mk false none).start).1, true)
    ∧ ((AgentState.mk false none).start).1.activeLoops = 1
    ∧ (AgentState.mk true (some true)).stop.stop = (AgentState.mk true (some true)).stop := by
  have h := start_stop_idempotent (AgentState.mk false none) rfl
  exact ⟨h.1, h.2.1, h.2.2 (AgentState.mk true (some true))⟩

/-- C10 witness: a PENDING order submitted to an empty engine leaves it
unchanged. -/
theorem submit_order_non_approved_noop_witness :
    (MarketEnv.mk 0 [] [] []).submit_order
      { id := "o1", trader_id := "t1", symbol := "AAPL", side := OrderSide.BUY,
        quantity := 1, price := none, status := OrderStatus.PENDING } =
      MarketEnv.mk 0 [] [] [] :=
  submit_order_non_approved_noop _ _ (by decide)

end Swarm
